import Mathlib

/-!
Verification of the gasolineras-mexico data pipeline (src/utils.py, src/app.py).

The development shallowly embeds the data-transformation core of the
repository: station reconciliation (`prepare_station_data`), price cleaning
(`remove_price_outliers`, `prepare_price_data`), the grouped aggregates used
by the price- and volume-analysis functions, and the number formatters
(`format_volume`, `format_currency`).  Tabular data is modelled as lists of
typed records; pandas missing values (NaN) are modelled as `Option`
(`none` = NaN), and the float special values that the claims depend on
(`inf`, `nan` from division) are modelled by the inductive `PVal`.
Machine floats otherwise carry exact rationals: every numeric value the
claims exercise is exactly representable, so `ℚ` arithmetic agrees with the
float arithmetic of the source on those inputs.
-/

namespace GasMx

attribute [local semireducible] Rat.add Rat.mul Rat.sub Rat.inv

/-- A raw cell of the station/price CSV before numeric coercion: a numeric
value, a non-numeric string, or an empty/NaN cell.  `pd.to_numeric(errors
= "coerce")` maps the latter two to NaN. -/
inductive RawCell where
  | num (q : ℚ)
  | txt (s : String)
  | missing
deriving DecidableEq

/-- A row of the raw station dataframe (`df_gas` and the output of
`prepare_station_data`): columns `state_name`, `place_id`,
`municipality_name` and the three fuel price columns.  `none` models NaN. -/
structure SRow where
  state_name : String
  place_id : Option String
  municipality_name : Option String
  regular_price : RawCell
  premium_price : RawCell
  diesel_price : RawCell
deriving DecidableEq

/-- A station row after `prepare_price_data` coerced the price columns to
numeric: prices are `Option ℚ` (`none` = NaN). -/
structure PRow where
  state_name : String
  place_id : Option String
  municipality_name : Option String
  regular_price : Option ℚ
  premium_price : Option ℚ
  diesel_price : Option ℚ
deriving DecidableEq

/-- The three fuel types whose price columns the pipeline cleans. -/
inductive Fuel where
  | regular
  | premium
  | diesel
deriving DecidableEq

/-- Select a fuel price column of a numeric station row. -/
def fuelCol : Fuel → PRow → Option ℚ
  | .regular => PRow.regular_price
  | .premium => PRow.premium_price
  | .diesel => PRow.diesel_price

/-- `pd.to_numeric(x, errors="coerce")` on one cell: numeric cells survive,
strings and NaN coerce to NaN. -/
def toNumeric : RawCell → Option ℚ
  | .num q => some q
  | .txt _ => none
  | .missing => none

/-- The per-row effect of the `pd.to_numeric` loop in `prepare_price_data`:
the three price columns are coerced, all other columns are untouched. -/
def coerceRow (r : SRow) : PRow :=
  { state_name := r.state_name
    place_id := r.place_id
    municipality_name := r.municipality_name
    regular_price := toNumeric r.regular_price
    premium_price := toNumeric r.premium_price
    diesel_price := toNumeric r.diesel_price }

/-- The non-missing values of a column, in row order (what pandas keeps when
computing a quantile or a mean: NaN entries are ignored). -/
def nonMissing (col : List (Option ℚ)) : List ℚ :=
  col.filterMap id

/-- Insert a value into an ascending-sorted list. -/
def sortedInsert (x : ℚ) : List ℚ → List ℚ
  | [] => [x]
  | y :: ys => if x ≤ y then x :: y :: ys else y :: sortedInsert x ys

/-- Sort a list of rationals ascending (insertion sort). -/
def sortQ (l : List ℚ) : List ℚ :=
  l.foldr sortedInsert []

/-- Floor of a rational as an integer, computed directly from the reduced
numerator and (positive) denominator so that kernel reduction works. -/
def ratFloor (q : ℚ) : ℤ :=
  Int.fdiv q.num q.den

/-- Python's two-argument `min`: the second argument replaces the first only
when it compares strictly smaller, so a NaN first argument (every comparison
false) is returned unchanged. -/
def qmin (a b : ℚ) : ℚ :=
  if b < a then b else a

/-- Python's two-argument `max`: the second argument replaces the first only
when it compares strictly greater. -/
def qmax (a b : ℚ) : ℚ :=
  if a < b then b else a

/-- `Series.quantile(q)` with the default linear interpolation: with the
sorted non-missing values `v_0 ≤ … ≤ v_(n-1)` and position
`h = q * (n - 1)`, the result is `v_i + (h - i) * (v_(i+1) - v_i)` for
`i = ⌊h⌋`; on an empty series the result is NaN (`none`). -/
def quantileLinear (l : List ℚ) (q : ℚ) : Option ℚ :=
  let s := sortQ l
  if s.isEmpty then none
  else
    let n : ℕ := s.length
    let h : ℚ := q * ((n : ℚ) - 1)
    let i : ℕ := (ratFloor h).toNat
    let j : ℕ := Nat.min (i + 1) (n - 1)
    let vi := s.getD i 0
    let vj := s.getD j 0
    some (vi + (h - (i : ℚ)) * (vj - vi))

/-- Python's `min(a, b)` on a float that may be NaN in the first position
(as in `min(lower_bound, min_price)`): a NaN first argument is returned
unchanged because no comparison against NaN succeeds. -/
def pyMin (a : Option ℚ) (b : ℚ) : Option ℚ :=
  match a with
  | none => none
  | some x => some (qmin x b)

/-- Python's `max(a, b)` with a possibly-NaN first argument (as in
`max(upper_bound, max_price)`). -/
def pyMax (a : Option ℚ) (b : ℚ) : Option ℚ :=
  match a with
  | none => none
  | some x => some (qmax x b)

/-- `remove_price_outliers`: `effective_lower = min(quantile(0.1/100), 12)`
computed on the column's non-missing values. -/
def effectiveLower (col : List (Option ℚ)) : Option ℚ :=
  pyMin (quantileLinear (nonMissing col) (1 / 1000)) 12

/-- `remove_price_outliers`: `effective_upper = max(quantile(99.9/100), 35)`
computed on the column's non-missing values. -/
def effectiveUpper (col : List (Option ℚ)) : Option ℚ :=
  pyMax (quantileLinear (nonMissing col) (999 / 1000)) 35

/-- One cell of `df.loc[~mask, column] = np.nan` where
`mask = (col >= effective_lower) & (col <= effective_upper)`: float
comparisons with NaN are false, so a cell survives exactly when the cell and
both bounds are numbers and the cell lies inside the bounds. -/
def keepCell (lo hi : Option ℚ) : Option ℚ → Option ℚ
  | some x =>
    match lo, hi with
    | some l, some h => if l ≤ x ∧ x ≤ h then some x else none
    | _, _ => none
  | none => none

/-- `remove_price_outliers` restricted to the one column it reads and
writes: bounds are computed from the column, then every cell outside the
bounds is replaced by NaN.  Rows are never dropped. -/
def removeOutliersCol (col : List (Option ℚ)) : List (Option ℚ) :=
  col.map (keepCell (effectiveLower col) (effectiveUpper col))

/-- `remove_price_outliers(df, "regular_price")` on the whole dataframe:
bounds come from the `regular_price` column and only that column is
rewritten. -/
def removeOutliersRegular (df : List PRow) : List PRow :=
  let lo := effectiveLower (df.map PRow.regular_price)
  let hi := effectiveUpper (df.map PRow.regular_price)
  df.map fun r => { r with regular_price := keepCell lo hi r.regular_price }

/-- `remove_price_outliers(df, "premium_price")`. -/
def removeOutliersPremium (df : List PRow) : List PRow :=
  let lo := effectiveLower (df.map PRow.premium_price)
  let hi := effectiveUpper (df.map PRow.premium_price)
  df.map fun r => { r with premium_price := keepCell lo hi r.premium_price }

/-- `remove_price_outliers(df, "diesel_price")`. -/
def removeOutliersDiesel (df : List PRow) : List PRow :=
  let lo := effectiveLower (df.map PRow.diesel_price)
  let hi := effectiveUpper (df.map PRow.diesel_price)
  df.map fun r => { r with diesel_price := keepCell lo hi r.diesel_price }

/-- `prepare_price_data`: coerce the three price columns to numeric, then
run the outlier filter on `regular_price`, `premium_price`, `diesel_price`
in that order. -/
def preparePriceData (df : List SRow) : List PRow :=
  removeOutliersDiesel (removeOutliersPremium (removeOutliersRegular (df.map coerceRow)))

/-- Project a fuel's price column out of a numeric dataframe. -/
def colOf (fuel : Fuel) (df : List PRow) : List (Option ℚ) :=
  df.map (fuelCol fuel)

/-- `df_gas.drop_duplicates(subset=["place_id"])` with the default
`keep="first"`, threaded through an accumulator of already-seen ids.
pandas treats NaN ids as equal to each other, so `none` is one key like any
other: only the first row with a missing id survives. -/
def pwGo : List (Option String) → List SRow → List SRow
  | _, [] => []
  | seen, x :: xs =>
    if x.place_id ∈ seen then pwGo seen xs
    else x :: pwGo (x.place_id :: seen) xs

/-- `df_gas.drop_duplicates(subset=["place_id"])`: keep the first row for
each `place_id` value (NaN included), in input order. -/
def dropDupPlace (gas : List SRow) : List SRow :=
  pwGo [] gas

/-- The all-NaN row a left merge makes for a canonical state that matches no
station row (`place_id`, `municipality_name` and the price columns are NaN,
`state_name` comes from the left side). -/
def placeholderRow (s : String) : SRow :=
  { state_name := s
    place_id := none
    municipality_name := none
    regular_price := .missing
    premium_price := .missing
    diesel_price := .missing }

/-- The block of rows the left merge
`df_states_only.merge(df_gas, on="state_name", how="left")` produces for one
canonical state: the matching station rows in input order, or a single
placeholder row when there is no match. -/
def stateSegment (gas : List SRow) (s : String) : List SRow :=
  let m := gas.filter fun r => r.state_name = s
  if m = [] then [placeholderRow s] else m

/-- The left merge of the canonical state roster (already deduplicated, as
`unique()` leaves it) against the station rows: one block of rows per
canonical state, in roster order. -/
def leftJoinStates (roster : List String) (gas : List SRow) : List SRow :=
  roster.dedup.flatMap (stateSegment gas)

/-- `prepare_station_data(df_gas, df_pop)`: deduplicate by `place_id`
(first occurrence wins), then left-join the canonical state roster (the
`Entidad Federativa` column of the population dataset) against the result.
The column-creating loop of the source is the identity here because the row
type always carries the five columns. -/
def prepareStationData (gas : List SRow) (roster : List String) : List SRow :=
  leftJoinStates roster (dropDupPlace gas)

/-- Specification of what a second `drop_duplicates(subset=["place_id"])`
pass does to an output of the reconciler whose station rows all carry ids:
it can only remove rows with a missing id, and it removes exactly those that
follow an earlier missing-id row.  `b` records whether a missing id has been
seen already. -/
def dropLaterNoneIds (b : Bool) : List SRow → List SRow
  | [] => []
  | x :: xs =>
    match x.place_id with
    | none => if b then dropLaterNoneIds b xs else x :: dropLaterNoneIds true xs
    | some _ => x :: dropLaterNoneIds b xs

/-- `df_station.groupby("state_name")["place_id"].nunique()` for one state:
the number of distinct non-missing `place_id` values among the rows of that
state (pandas `nunique` ignores NaN). -/
def nuniquePlace (df : List SRow) (s : String) : ℕ :=
  (((df.filter fun r => r.state_name = s).filterMap SRow.place_id).dedup).length

/-- The grouped station counts `stations_per_state`: one `(state, count)`
pair per state value occurring in the dataframe. -/
def stationsPerStateGrouped (df : List SRow) : List (String × ℕ) :=
  ((df.map SRow.state_name).dedup).map fun s => (s, nuniquePlace df s)

/-- `bar_chart_stations_by_state` up to its `fillna(0)`: merge the canonical
roster (left) with the grouped counts and fill the count of roster states
that the grouping missed with 0. -/
def stationsPerState (df : List SRow) (roster : List String) : List (String × ℕ) :=
  roster.dedup.map fun s => (s, ((stationsPerStateGrouped df).lookup s).getD 0)

/-- The distinct state keys of a price dataframe, in first-occurrence order
(the key set of `df_price.groupby("state_name")`; `groupby` sorts the keys,
which never matters below because only sums over all keys are used). -/
def stateKeys (df : List PRow) : List String :=
  (df.map PRow.state_name).dedup

/-- The non-missing prices of one fuel among the rows of one state: exactly
the values entering `df_price.groupby("state_name")[fuel].mean()` for that
state. -/
def eligPrices (df : List PRow) (s : String) (fuel : Fuel) : List ℚ :=
  (df.filter fun r => r.state_name = s).filterMap (fuelCol fuel)

/-- The non-missing prices of one fuel over the whole dataframe: the values
entering `df_price[fuel].mean()`. -/
def natPrices (df : List PRow) (fuel : Fuel) : List ℚ :=
  df.filterMap (fuelCol fuel)

/-- Arithmetic mean of a list of rationals (`0` on the empty list, where the
source would produce NaN; every use below multiplies it by the list length,
which is then `0` as well). -/
def qmean (l : List ℚ) : ℚ :=
  l.sum / (l.length : ℚ)

/-- A state's average price for one fuel
(`groupby("state_name")[fuel].mean()`). -/
def groupAvg (df : List PRow) (s : String) (fuel : Fuel) : ℚ :=
  qmean (eligPrices df s fuel)

/-- The national average price for one fuel (`df_price[fuel].mean()`): the
unweighted mean over all stations selling that fuel. -/
def natAvg (df : List PRow) (fuel : Fuel) : ℚ :=
  qmean (natPrices df fuel)

/-- The state-level sum of `priceDeviation` weighted by the number of
stations of the state that sell the fuel (the stations whose prices enter
the state's average). -/
def sumWeightedDevElig (df : List PRow) (fuel : Fuel) : ℚ :=
  ((stateKeys df).map fun s =>
    ((eligPrices df s fuel).length : ℚ) * (groupAvg df s fuel - natAvg df fuel)).sum

/-- The state-level sum of `priceDeviation` weighted by the state's full
station count (every row of the state, whether or not it sells the fuel —
what `stationsPerState` counts). -/
def sumWeightedDevByStationCount (df : List PRow) (fuel : Fuel) : ℚ :=
  ((stateKeys df).map fun s =>
    ((df.filter fun r => r.state_name = s).length : ℚ) * (groupAvg df s fuel - natAvg df fuel)).sum

/-- A state's mean price as the `groupby` leaves it before the merge: NaN
(`none`) when the state has no station selling the fuel. -/
def stateMean (df : List PRow) (s : String) (fuel : Fuel) : Option ℚ :=
  let e := eligPrices df s fuel
  if e.isEmpty then none else some (qmean e)

/-- The per-state average-price table of `display_state_price_triplet` and
`display_state_price_deviation_triplet`: group means merged left onto the
canonical roster, then `fillna(0)` — a state that is absent from the
grouping, or grouped with no eligible station, gets the numeric entry 0. -/
def stateAvgPriceTable (df : List PRow) (roster : List String) (fuel : Fuel) :
    List (String × ℚ) :=
  roster.dedup.map fun s => (s, (stateMean df s fuel).getD 0)

/-- A pandas/NumPy float scalar as far as the claims need it: an exact
rational, one of the two infinities, or NaN. -/
inductive PVal where
  | num (q : ℚ)
  | inf
  | ninf
  | nan
deriving DecidableEq

/-- IEEE-754 division as NumPy performs it on float Series (it warns on
division by zero but raises nothing): finite/0 is signed infinity for a
nonzero numerator and NaN for 0/0; NaN propagates. -/
def pdiv : PVal → PVal → PVal
  | .nan, _ => .nan
  | _, .nan => .nan
  | .num a, .num b =>
    if b = 0 then (if 0 < a then .inf else if a < 0 then .ninf else .nan)
    else .num (a / b)
  | .inf, .num b => if 0 ≤ b then .inf else .ninf
  | .ninf, .num b => if 0 ≤ b then .ninf else .inf
  | .num _, .inf => .num 0
  | .num _, .ninf => .num 0
  | _, .inf => .nan
  | _, .ninf => .nan

/-- One state's `volume_per_capita` in `volume_analysis_charts`: the state's
total 2024 volume divided by the `2024 population` cell the left merge
found for it (`none` models a state missing from the population table or a
non-numeric cell, which the merge/coercion turn into NaN). -/
def volumePerCapita (vol : ℚ) (popCell : Option ℚ) : PVal :=
  pdiv (.num vol) (match popCell with | none => .nan | some p => .num p)

/-- `np.where(cond, a, b)`: both branches are evaluated, one is selected. -/
def npWhere (c : Bool) (a b : PVal) : PVal :=
  if c then a else b

/-- One state's `avg_volume_per_station` in `volume_analysis_charts`: the
station count is the merged `count_stations` cell after `fillna(0)`, and
`np.where(count > 0, vol / count, 0)` selects 0 for a zero count. -/
def avgVolumePerStation (vol : ℚ) (countCell : Option ℕ) : PVal :=
  let c := countCell.getD 0
  npWhere (decide (0 < c)) (pdiv (.num vol) (.num (c : ℚ))) (.num 0)

/-- Strip all trailing copies of one character from a string
(Python's `str.rstrip` with a single-character argument). -/
def rstripChar (s : String) (c : Char) : String :=
  ⟨(s.data.reverse.dropWhile fun d => d = c).reverse⟩

/-- Round a rational to the nearest integer, ties to even
(the rounding of Python's fixed-point float formatting; every value the
formatter claims exercise is tie-free and exactly representable). -/
def roundHalfEven (r : ℚ) : ℤ :=
  let f := ratFloor r
  if r - (f : ℚ) < 1 / 2 then f
  else if (1 : ℚ) / 2 < r - (f : ℚ) then f + 1
  else if f % 2 = 0 then f else f + 1

/-- Python's `f"{q:.2f}"` for the nonnegative values the formatter receives:
the integer part, a point, and exactly two fractional digits. -/
def formatFixed2 (q : ℚ) : String :=
  let m := roundHalfEven (q * 100)
  let ip := m / 100
  let fp := (m % 100).toNat
  toString ip ++ "." ++ (if fp < 10 then "0" ++ toString fp else toString fp)

/-- `format_volume` of `volume_analysis_charts`: note that the source
appends the `B`/`M` suffix inside the f-string and only then calls
`.rstrip('0').rstrip('.')`, so the string being stripped always ends in the
suffix letter. -/
def formatVolume (x : ℚ) (includeLabel : Bool) : String :=
  if 10 ^ 9 ≤ x then
    let val := rstripChar (rstripChar (formatFixed2 (x / 10 ^ 9) ++ "B") '0') '.'
    if includeLabel then val ++ " liters" else val
  else
    let val := rstripChar (rstripChar (formatFixed2 (x / 10 ^ 6) ++ "M") '0') '.'
    if includeLabel then val ++ " liters" else val

/-- The `(USD …)` component of `format_currency` at a given scale
(`1e12`, `1e9` or `1e6`) — again suffix first, strip afterwards. -/
def usdPart (usdValue : ℚ) (scale : ℚ) (suffixLetter : String) : String :=
  rstripChar (rstripChar ("(USD " ++ formatFixed2 (usdValue / scale) ++ suffixLetter ++ ")") '0') '.'

/-- `format_currency` of `volume_analysis_charts`: MXN value compacted at
the `T`/`B`/`M` tier, optional ` MXN` unit and optional USD equivalent at
the fixed 20 MXN/USD rate. -/
def formatCurrency (x : ℚ) (includeCurrency includeUsd : Bool) : String :=
  let usdValue := x / 20
  if 10 ^ 12 ≤ x then
    let mxn := rstripChar (rstripChar ("$" ++ formatFixed2 (x / 10 ^ 12) ++ "T") '0') '.'
    if includeUsd then
      let usd := if usdValue < 10 ^ 12 then usdPart usdValue (10 ^ 9) "B"
                 else usdPart usdValue (10 ^ 12) "T"
      if includeCurrency then mxn ++ " MXN " ++ usd else mxn ++ " " ++ usd
    else if includeCurrency then mxn ++ " MXN" else mxn
  else if 10 ^ 9 ≤ x then
    let mxn := rstripChar (rstripChar ("$" ++ formatFixed2 (x / 10 ^ 9) ++ "B") '0') '.'
    if includeUsd then
      let usd := usdPart usdValue (10 ^ 9) "B"
      if includeCurrency then mxn ++ " MXN " ++ usd else mxn ++ " " ++ usd
    else if includeCurrency then mxn ++ " MXN" else mxn
  else
    let mxn := rstripChar (rstripChar ("$" ++ formatFixed2 (x / 10 ^ 6) ++ "M") '0') '.'
    if includeUsd then
      let usd := usdPart usdValue (10 ^ 6) "M"
      if includeCurrency then mxn ++ " MXN " ++ usd else mxn ++ " " ++ usd
    else if includeCurrency then mxn ++ " MXN" else mxn

/-! ## Theorems -/

/-- `qmin` (Python's two-argument `min` on numbers) agrees with the
mathematical minimum. -/
theorem qmin_eq_min (a b : ℚ) : qmin a b = min a b := by
  unfold qmin
  rcases le_or_lt a b with h | h
  · rw [if_neg (not_lt.mpr h), min_eq_left h]
  · rw [if_pos h, min_eq_right h.le]

/-- `qmax` (Python's two-argument `max` on numbers) agrees with the
mathematical maximum. -/
theorem qmax_eq_max (a b : ℚ) : qmax a b = max a b := by
  unfold qmax
  rcases le_or_lt b a with h | h
  · rw [if_neg (not_lt.mpr h), max_eq_left h]
  · rw [if_pos h, max_eq_right h.le]

/--
Claim C1 (status: code_bug).  The claim — following the spec — says a
group's entry in an average-price table is 0 only if the eligible stations'
mean is literally zero.  The code instead runs `fillna(0)` after the left
merge (utils.py:344 and utils.py:603), so a canonical state with a station
that sells no fuel of the given type (or with no stations at all) gets the
numeric entry 0, indistinguishable from a true zero average.  This theorem
evaluates the embedded table at such a failing input: the single station of
"Colima" has no regular price, yet the table entry is the number 0.
-/
theorem claim_C1_zero_fill_eval :
    stateAvgPriceTable [⟨"Colima", some "p1", some "Colima", none, none, none⟩]
        ["Colima"] .regular = [("Colima", 0)]
      ∧ stateMean [⟨"Colima", some "p1", some "Colima", none, none, none⟩]
        "Colima" .regular = none := by
  constructor
  · decide
  · decide

/--
Claim C2 (status: code_bug).  The claim says `volumePerCapita` yields
missing for a zero or missing population.  The code divides directly
(utils.py:1244-1246); NumPy float division of a positive volume by
population 0 yields `inf`, not missing.  (A missing population does yield
NaN, the second conjunct.)
-/
theorem claim_C2_inf_eval :
    volumePerCapita 1000000 (some 0) = PVal.inf
      ∧ volumePerCapita 1000000 none = PVal.nan := by
  constructor
  · decide
  · rfl

/--
Claim C4 (status: code_bug).  The claim says
`formatVolume(1_500_000_000) = "1.5B liters"`,
`formatVolume(2_000_000) = "2M liters"` and
`formatCurrency(1e12, includeCurrency=true) = "$1T MXN"`.  The source
appends the magnitude suffix inside the f-string and only then calls
`.rstrip('0').rstrip('.')` (utils.py:760-762, 771), so the strip never
removes anything: the strings end in the suffix letter, never in `0` or
`.`.  This theorem evaluates the embedded formatters at the claimed inputs
and shows the actual outputs, each keeping the trailing zeros.
-/
theorem claim_C4_format_eval :
    formatVolume 1500000000 true = "1.50B liters"
      ∧ formatVolume 2000000 true = "2.00M liters"
      ∧ formatCurrency 1000000000000 true false = "$1.00T MXN" := by
  refine ⟨by decide, by decide, by decide⟩

/--
Claim C6, counterexample.  The claim asserts that on prices
`[5, 20, 21, 22, 40]` the effective bounds are exactly `[12, 35]`.  In the
code, `quantile(0.001)` interpolates to 5.06 and `quantile(0.999)` to
39.928, and `min(5.06, 12) = 5.06`, `max(39.928, 35) = 39.928`: the bounds
are wider than `[12, 35]`, not equal to it.
-/
theorem claim_C6_counterexample :
    ¬ (effectiveLower [some 5, some 20, some 21, some 22, some 40] = some 12
        ∧ effectiveUpper [some 5, some 20, some 21, some 22, some 40] = some 35) := by
  decide

/--
Claim C6, amended: on prices `[5, 20, 21, 22, 40]` with the default bounds
the effective bounds are `[5.06, 39.928]` (the interpolated 0.1th and
99.9th percentiles, which are more lenient than 12 and 35); the values 5
and 40 still become missing and 20, 21, 22 survive.
-/
theorem claim_C6_amended :
    effectiveLower [some 5, some 20, some 21, some 22, some 40] = some (253 / 50)
      ∧ effectiveUpper [some 5, some 20, some 21, some 22, some 40] = some (4991 / 125)
      ∧ removeOutliersCol [some 5, some 20, some 21, some 22, some 40]
          = [none, some 20, some 21, some 22, none] := by
  refine ⟨by decide, by decide, by decide⟩

/--
Claim C7, counterexample.  The claim asserts that on an entirely missing
column the effective bounds fall back to the fixed `[12, 35]` range.  In
the code the quantiles of an all-NaN column are NaN and Python's
`min(nan, 12)` / `max(nan, 35)` return the NaN first argument, so both
effective bounds are missing, not 12 and 35.
-/
theorem claim_C7_counterexample :
    ¬ (effectiveLower [(none : Option ℚ)] = some 12
        ∧ effectiveUpper [(none : Option ℚ)] = some 35) := by
  decide

/--
Claim C7, amended: on an entirely missing column the filter does not crash;
the percentiles are missing, `min`/`max` propagate the missing first
argument so both effective bounds are missing, every comparison against
them is false, and the output column equals the (all-missing) input.
-/
theorem claim_C7_amended (col : List (Option ℚ)) (h : ∀ v ∈ col, v = none) :
    removeOutliersCol col = col
      ∧ effectiveLower col = none ∧ effectiveUpper col = none := by
  have hnm : nonMissing col = [] := by
    simp only [nonMissing, List.filterMap_eq_nil_iff, id]
    exact h
  have hq : ∀ q : ℚ, quantileLinear (nonMissing col) q = none := by
    intro q
    rw [hnm]
    rfl
  have hlo : effectiveLower col = none := by
    unfold effectiveLower
    rw [hq]
    rfl
  have hhi : effectiveUpper col = none := by
    unfold effectiveUpper
    rw [hq]
    rfl
  refine ⟨?_, hlo, hhi⟩
  unfold removeOutliersCol
  rw [hlo, hhi]
  have : ∀ v ∈ col, keepCell none none v = v := by
    intro v hv
    rw [h v hv]
    rfl
  rw [List.map_congr_left this]
  simp

/-- Witness for claim C7's amended theorem at the concrete all-missing
column `[none, none]`. -/
theorem claim_C7_witness :
    removeOutliersCol ([none, none] : List (Option ℚ)) = [none, none] :=
  (claim_C7_amended [none, none] (by decide)).1

/--
Claim C10 (status: confirmed).  `avg_volume_per_station` is computed with
`np.where(count > 0, vol / count, 0)` after `fillna(0)` on the count
(utils.py:1054-1060): a group with station count 0 gets the defined number
0, and the result is a finite number for every input — never NaN and never
an infinity, unlike the per-capita ratio.
-/
theorem claim_C10 (vol : ℚ) (cell : Option ℕ) :
    (cell.getD 0 = 0 → avgVolumePerStation vol cell = PVal.num 0)
      ∧ ∃ q : ℚ, avgVolumePerStation vol cell = PVal.num q := by
  by_cases hc : 0 < cell.getD 0
  · have hb : ((cell.getD 0 : ℕ) : ℚ) ≠ 0 := by
      exact_mod_cast Nat.pos_iff_ne_zero.mp hc
    constructor
    · intro h0
      omega
    · refine ⟨vol / (cell.getD 0 : ℚ), ?_⟩
      simp [avgVolumePerStation, npWhere, hc, pdiv, hb]
  · constructor
    · intro _
      simp [avgVolumePerStation, npWhere, hc]
    · exact ⟨0, by simp [avgVolumePerStation, npWhere, hc]⟩

/-- Witness for claim C10 at a concrete group with a missing station count
(`fillna(0)` turns it into count 0): the ratio is the number 0. -/
theorem claim_C10_witness : avgVolumePerStation 500 none = PVal.num 0 :=
  (claim_C10 500 none).1 rfl

/-- Looking a key up in an association list built by pairing each key with a
function of itself returns that function value, whenever the key occurs. -/
theorem lookup_pair_of_mem {β : Type} (f : String → β) :
    ∀ (R : List String) (s : String), s ∈ R →
      (R.map fun x => (x, f x)).lookup s = some (f s) := by
  intro R
  induction R with
  | nil => intro s hs; cases hs
  | cons a t ih =>
    intro s hs
    by_cases hsa : s = a
    · subst hsa
      simp [List.lookup]
    · have hmem : s ∈ t := by
        rcases List.mem_cons.mp hs with h | h
        · exact absurd h hsa
        · exact h
      have hba : (s == a) = false := beq_false_of_ne hsa
      simp only [List.map_cons, List.lookup, hba]
      exact ih s hmem

/-- Looking up a key that occurs nowhere in such an association list gives
`none`. -/
theorem lookup_pair_of_not_mem {β : Type} (f : String → β) :
    ∀ (R : List String) (s : String), s ∉ R →
      (R.map fun x => (x, f x)).lookup s = none := by
  intro R
  induction R with
  | nil => intro s _; rfl
  | cons a t ih =>
    intro s hs
    have hsa : s ≠ a := fun h => hs (h ▸ List.mem_cons_self a t)
    have hmem : s ∉ t := fun h => hs (List.mem_cons_of_mem a h)
    have hba : (s == a) = false := beq_false_of_ne hsa
    simp only [List.map_cons, List.lookup, hba]
    exact ih s hmem

/-- If a state occurs in no row of the dataframe, its distinct station
count is zero. -/
theorem nuniquePlace_of_filter_nil (df : List SRow) (s : String)
    (h : (df.filter fun r => r.state_name = s) = []) : nuniquePlace df s = 0 := by
  unfold nuniquePlace
  rw [h]
  rfl

/--
Claim C5 (status: confirmed).  Every state of the canonical roster (the
states of the population dataset) appears in the stations-per-state output:
`bar_chart_stations_by_state` merges the full roster left against the
grouped counts and fills missing counts with 0 (utils.py:171-174), so a
roster state's entry is exactly its distinct-station count, which is 0
when the state has no station records; and `prepare_station_data` keeps a
row for every roster state (utils.py:24-26), so state-level aggregates
built from it cannot drop a state.
-/
theorem claim_C5 (df gas : List SRow) (roster : List String) (s : String)
    (hs : s ∈ roster) :
    (stationsPerState df roster).lookup s = some (nuniquePlace df s)
      ∧ ((df.filter fun r => r.state_name = s) = [] → nuniquePlace df s = 0)
      ∧ ∃ r ∈ prepareStationData gas roster, r.state_name = s := by
  refine ⟨?_, nuniquePlace_of_filter_nil df s, ?_⟩
  · have h1 : (stationsPerState df roster).lookup s
        = some (((stationsPerStateGrouped df).lookup s).getD 0) :=
      lookup_pair_of_mem _ roster.dedup s (List.mem_dedup.mpr hs)
    rw [h1]
    congr 1
    by_cases hmem : s ∈ (df.map SRow.state_name).dedup
    · rw [show (stationsPerStateGrouped df).lookup s = some (nuniquePlace df s) from
        lookup_pair_of_mem _ _ s hmem]
      rfl
    · rw [show (stationsPerStateGrouped df).lookup s = none from
        lookup_pair_of_not_mem _ _ s hmem]
      have hfil : (df.filter fun r => r.state_name = s) = [] := by
        rw [List.filter_eq_nil_iff]
        intro r hr hrs
        exact hmem (List.mem_dedup.mpr (List.mem_map.mpr ⟨r, hr, of_decide_eq_true hrs⟩))
      rw [nuniquePlace_of_filter_nil df s hfil]
      rfl
  · have hsd : s ∈ roster.dedup := List.mem_dedup.mpr hs
    by_cases hseg : ((dropDupPlace gas).filter fun r => r.state_name = s) = []
    · refine ⟨placeholderRow s, ?_, rfl⟩
      refine List.mem_flatMap.mpr ⟨s, hsd, ?_⟩
      simp [stateSegment, hseg]
    · obtain ⟨r, hr⟩ := List.exists_mem_of_ne_nil _ hseg
      refine ⟨r, ?_, ?_⟩
      · refine List.mem_flatMap.mpr ⟨s, hsd, ?_⟩
        simpa [stateSegment, hseg] using hr
      · exact of_decide_eq_true (List.mem_filter.mp hr).2

/-- Witness for claim C5 on the empty station dataframe and the one-state
roster: the state appears with count 0 and the reconciler keeps a row for
it. -/
theorem claim_C5_witness :
    (stationsPerState ([] : List SRow) ["Aguascalientes"]).lookup "Aguascalientes"
      = some 0 := by
  have h := (claim_C5 [] [] ["Aguascalientes"] "Aguascalientes" (by decide)).1
  rw [h]
  rfl

/-- Inserting into a sorted list grows the length by one. -/
theorem sortedInsert_length (x : ℚ) :
    ∀ l : List ℚ, (sortedInsert x l).length = l.length + 1 := by
  intro l
  induction l with
  | nil => rfl
  | cons y ys ih =>
    unfold sortedInsert
    by_cases h : x ≤ y
    · rw [if_pos h]
      rfl
    · rw [if_neg h]
      simp [ih]

/-- Insertion sort preserves length. -/
theorem sortQ_length (l : List ℚ) : (sortQ l).length = l.length := by
  induction l with
  | nil => rfl
  | cons y ys ih =>
    unfold sortQ at ih ⊢
    rw [List.foldr_cons, sortedInsert_length, ih, List.length_cons]

/-- On a nonempty series the pandas quantile is a number, never NaN. -/
theorem quantileLinear_isSome (l : List ℚ) (q : ℚ) (h : l ≠ []) :
    ∃ v, quantileLinear l q = some v := by
  have hlen : (sortQ l).length ≠ 0 := by
    rw [sortQ_length]
    exact fun h0 => h (List.length_eq_zero.mp h0)
  have hne : (sortQ l).isEmpty = false := by
    rw [List.isEmpty_eq_false]
    exact fun h0 => hlen (by rw [h0]; rfl)
  simp only [quantileLinear]
  rw [hne]
  simp

/--
Claim C3 (status: confirmed).  The outlier filter of
`remove_price_outliers`, as invoked by `prepare_price_data`:
(1) each fuel column of the prepared data is exactly the column filter
applied to that fuel's coerced column — the three columns are treated
independently, after `pd.to_numeric(…, errors="coerce")`;
(2) for a column with at least one non-missing value, the effective bounds
are `min(quantile(0.001), 12)` and `max(quantile(0.999), 35)` over the
non-missing values, and the filter maps a cell to itself when it lies
inside the bounds and to missing otherwise;
(3) rows are never dropped and the non-price columns are untouched.
-/
theorem claim_C3 (df : List SRow) :
    (∀ fuel : Fuel, colOf fuel (preparePriceData df)
        = removeOutliersCol (colOf fuel (df.map coerceRow)))
      ∧ (∀ col : List (Option ℚ), nonMissing col ≠ [] →
          ∃ ql qu, quantileLinear (nonMissing col) (1 / 1000) = some ql
            ∧ quantileLinear (nonMissing col) (999 / 1000) = some qu
            ∧ effectiveLower col = some (min ql 12)
            ∧ effectiveUpper col = some (max qu 35)
            ∧ removeOutliersCol col = col.map (fun v =>
                match v with
                | some x => if min ql 12 ≤ x ∧ x ≤ max qu 35 then some x else none
                | none => none))
      ∧ (preparePriceData df).length = df.length
      ∧ (preparePriceData df).map PRow.state_name = df.map SRow.state_name
      ∧ (preparePriceData df).map PRow.place_id = df.map SRow.place_id
      ∧ (preparePriceData df).map PRow.municipality_name
          = df.map SRow.municipality_name := by
  refine ⟨?_, ?_, ?_, ?_, ?_, ?_⟩
  · intro fuel
    cases fuel <;>
      (simp only [colOf, preparePriceData, removeOutliersDiesel, removeOutliersPremium,
        removeOutliersRegular, removeOutliersCol, fuelCol, List.map_map]; rfl)
  · intro col hcol
    obtain ⟨ql, hql⟩ := quantileLinear_isSome (nonMissing col) (1 / 1000) hcol
    obtain ⟨qu, hqu⟩ := quantileLinear_isSome (nonMissing col) (999 / 1000) hcol
    have hlo : effectiveLower col = some (min ql 12) := by
      unfold effectiveLower
      rw [hql]
      simp [pyMin, qmin_eq_min]
    have hhi : effectiveUpper col = some (max qu 35) := by
      unfold effectiveUpper
      rw [hqu]
      simp [pyMax, qmax_eq_max]
    refine ⟨ql, qu, hql, hqu, hlo, hhi, ?_⟩
    unfold removeOutliersCol
    rw [hlo, hhi]
    apply List.map_congr_left
    intro v _
    cases v <;> rfl
  · simp only [preparePriceData, removeOutliersDiesel, removeOutliersPremium,
      removeOutliersRegular, List.length_map]
  · simp only [preparePriceData, removeOutliersDiesel, removeOutliersPremium,
      removeOutliersRegular, List.map_map]
    rfl
  · simp only [preparePriceData, removeOutliersDiesel, removeOutliersPremium,
      removeOutliersRegular, List.map_map]
    rfl
  · simp only [preparePriceData, removeOutliersDiesel, removeOutliersPremium,
      removeOutliersRegular, List.map_map]
    rfl

/-- Witness for claim C3 on a one-row dataframe: the numeric regular price
20 lies inside the effective bounds and survives the whole pipeline. -/
theorem claim_C3_witness :
    colOf .regular (preparePriceData
        [⟨"Aguascalientes", some "p1", none, .num 20, .txt "n/a", .missing⟩])
      = [some 20] := by
  have h := (claim_C3
    [⟨"Aguascalientes", some "p1", none, .num 20, .txt "n/a", .missing⟩]).1 Fuel.regular
  rw [h]
  decide

/-- Sums over a key list split across pointwise addition. -/
theorem listSum_map_add (G : List String) (a b : String → ℚ) :
    (G.map fun s => a s + b s).sum = (G.map a).sum + (G.map b).sum := by
  induction G with
  | nil => simp
  | cons g t ih =>
    simp only [List.map_cons, List.sum_cons, ih]
    ring

/-- Sums over a key list split across pointwise subtraction. -/
theorem listSum_map_sub (G : List String) (a b : String → ℚ) :
    (G.map fun s => a s - b s).sum = (G.map a).sum - (G.map b).sum := by
  induction G with
  | nil => simp
  | cons g t ih =>
    simp only [List.map_cons, List.sum_cons, ih]
    ring

/-- A constant right factor moves out of a sum over a key list. -/
theorem listSum_map_mulRight (G : List String) (a : String → ℚ) (c : ℚ) :
    (G.map fun s => a s * c).sum = (G.map a).sum * c := by
  induction G with
  | nil => simp
  | cons g t ih =>
    simp only [List.map_cons, List.sum_cons, ih]
    ring

/-- Over a duplicate-free key list containing `k`, the sum of the indicator
of `k` scaled by `c` is `c`. -/
theorem listSum_map_ite_eq (G : List String) (hG : G.Nodup) (k : String)
    (hk : k ∈ G) (c : ℚ) :
    (G.map fun s => if k = s then c else 0).sum = c := by
  induction G with
  | nil => cases hk
  | cons a t ih =>
    rcases List.nodup_cons.mp hG with ⟨hat, htn⟩
    rcases List.mem_cons.mp hk with h | h
    · subst h
      have hz : (t.map fun s => if k = s then c else 0) = t.map fun _ => (0 : ℚ) := by
        apply List.map_congr_left
        intro s hs
        have hks : k ≠ s := by
          intro he
          rw [he] at hat
          exact hat hs
        rw [if_neg hks]
      simp [hz]
    · have hka : k ≠ a := by
        intro he
        rw [he] at h
        exact hat h
      simp [hka, ih htn h]

/-- The sum of any row statistic over the per-state fibers of a dataframe,
taken over a duplicate-free key list covering every row's state, equals the
sum over the whole dataframe. -/
theorem sum_filter_partition (m : PRow → ℚ) (G : List String) (hG : G.Nodup) :
    ∀ df : List PRow, (∀ r ∈ df, r.state_name ∈ G) →
      (G.map fun s => ((df.filter fun r => r.state_name = s).map m).sum).sum
        = (df.map m).sum := by
  intro df
  induction df with
  | nil => simp
  | cons x t ih =>
    intro hcov
    have hx : x.state_name ∈ G := hcov x (List.mem_cons_self _ _)
    have ht : ∀ r ∈ t, r.state_name ∈ G := fun r hr => hcov r (List.mem_cons_of_mem _ hr)
    have hterm : ∀ s ∈ G, ((List.filter (fun r => r.state_name = s) (x :: t)).map m).sum
        = (if x.state_name = s then m x else 0)
          + ((t.filter fun r => r.state_name = s).map m).sum := by
      intro s _
      by_cases hxs : x.state_name = s <;> simp [List.filter_cons, hxs]
    rw [List.map_congr_left hterm, listSum_map_add, ih ht,
      listSum_map_ite_eq G hG x.state_name hx (m x)]
    simp

/-- The sum of the surviving values of an optional row statistic equals the
sum of the statistic with missing values read as 0. -/
theorem filterMap_sum_eq (f : PRow → Option ℚ) :
    ∀ l : List PRow, (l.filterMap f).sum = (l.map fun r => (f r).getD 0).sum := by
  intro l
  induction l with
  | nil => rfl
  | cons x t ih => cases hfx : f x <;> simp [List.filterMap_cons, hfx, ih]

/-- The number of surviving values of an optional row statistic, as a
rational, equals the sum of its missing-indicator. -/
theorem filterMap_length_cast (f : PRow → Option ℚ) :
    ∀ l : List PRow, ((l.filterMap f).length : ℚ)
      = (l.map fun r => if (f r).isSome then (1 : ℚ) else 0).sum := by
  intro l
  induction l with
  | nil => simp
  | cons x t ih =>
    cases hfx : f x
    · simpa [List.filterMap_cons, hfx] using ih
    · simp only [List.filterMap_cons, hfx, List.length_cons, List.map_cons,
        List.sum_cons, Option.isSome_some, if_pos]
      push_cast
      rw [ih]
      ring

/--
Claim C8, counterexample.  Read with "station count" as the group's full
station count (what `stationsPerState` counts, utils.py:99-100), the
weighted deviation sum is not zero whenever some station does not sell the
fuel: with one station of state "A" at 10, one of "B" at 20 and a second
"B" station not selling regular, the national average is 15 and the sum is
`1·(10−15) + 2·(20−15) = 5`.
-/
theorem claim_C8_counterexample :
    sumWeightedDevByStationCount
        [⟨"A", some "s1", none, some 10, none, none⟩,
         ⟨"B", some "s2", none, some 20, none, none⟩,
         ⟨"B", some "s3", none, none, none, none⟩] .regular ≠ 0 := by
  decide

/--
Claim C8, amended: with each group weighted by the number of its stations
that sell the fuel (the stations whose prices enter the group average), the
sum over all groups of weight × (group average − national average) is
exactly zero, for every price dataset — the national average being the
unweighted mean over all stations selling the fuel, as the code computes it
(utils.py:595, 598).
-/
theorem claim_C8_amended (df : List PRow) (fuel : Fuel) :
    sumWeightedDevElig df fuel = 0 := by
  have hG : (stateKeys df).Nodup := List.nodup_dedup _
  have hcov : ∀ r ∈ df, r.state_name ∈ stateKeys df := fun r hr =>
    List.mem_dedup.mpr (List.mem_map.mpr ⟨r, hr, rfl⟩)
  have hterm : ∀ s ∈ stateKeys df,
      ((eligPrices df s fuel).length : ℚ) * (groupAvg df s fuel - natAvg df fuel)
        = (eligPrices df s fuel).sum
          - ((eligPrices df s fuel).length : ℚ) * natAvg df fuel := by
    intro s _
    by_cases hlen : (eligPrices df s fuel).length = 0
    · have hnil : eligPrices df s fuel = [] := List.length_eq_zero.mp hlen
      rw [hnil]
      simp
    · have hne : ((eligPrices df s fuel).length : ℚ) ≠ 0 := by
        exact_mod_cast hlen
      unfold groupAvg qmean
      field_simp
  unfold sumWeightedDevElig
  rw [List.map_congr_left hterm, listSum_map_sub, listSum_map_mulRight]
  have hsum : ((stateKeys df).map fun s => (eligPrices df s fuel).sum).sum
      = (natPrices df fuel).sum := by
    have h1 : ∀ s ∈ stateKeys df, (eligPrices df s fuel).sum
        = ((df.filter fun r => r.state_name = s).map fun r => (fuelCol fuel r).getD 0).sum :=
      fun s _ => filterMap_sum_eq (fuelCol fuel) _
    rw [List.map_congr_left h1,
      sum_filter_partition (fun r => (fuelCol fuel r).getD 0) (stateKeys df) hG df hcov]
    exact (filterMap_sum_eq (fuelCol fuel) df).symm
  have hlen : ((stateKeys df).map fun s => ((eligPrices df s fuel).length : ℚ)).sum
      = ((natPrices df fuel).length : ℚ) := by
    have h1 : ∀ s ∈ stateKeys df, ((eligPrices df s fuel).length : ℚ)
        = ((df.filter fun r => r.state_name = s).map
            fun r => if (fuelCol fuel r).isSome then (1 : ℚ) else 0).sum :=
      fun s _ => filterMap_length_cast (fuelCol fuel) _
    rw [List.map_congr_left h1,
      sum_filter_partition (fun r => if (fuelCol fuel r).isSome then (1 : ℚ) else 0)
        (stateKeys df) hG df hcov]
    exact (filterMap_length_cast (fuelCol fuel) df).symm
  rw [hsum, hlen]
  by_cases hn : ((natPrices df fuel).length : ℚ) = 0
  · have hnil : natPrices df fuel = [] := by
      have : (natPrices df fuel).length = 0 := by exact_mod_cast hn
      exact List.length_eq_zero.mp this
    rw [hnil]
    simp
  · unfold natAvg qmean
    field_simp

/-- Unfolding step for the dedup pass on a cons cell. -/
theorem pwGo_cons (seen : List (Option String)) (x : SRow) (xs : List SRow) :
    pwGo seen (x :: xs)
      = if x.place_id ∈ seen then pwGo seen xs
        else x :: pwGo (x.place_id :: seen) xs :=
  rfl

/-- Unfolding step for `dropLaterNoneIds` on a row with a concrete id. -/
theorem dropLater_cons_some (b : Bool) (x : SRow) (xs : List SRow) (k : String)
    (h : x.place_id = some k) :
    dropLaterNoneIds b (x :: xs) = x :: dropLaterNoneIds b xs := by
  simp only [dropLaterNoneIds, h]

/-- Unfolding step for `dropLaterNoneIds` on a missing-id row when a
missing id has been seen: the row is dropped. -/
theorem dropLater_cons_none_true (x : SRow) (xs : List SRow)
    (h : x.place_id = none) :
    dropLaterNoneIds true (x :: xs) = dropLaterNoneIds true xs := by
  simp only [dropLaterNoneIds, h, if_true]

/-- Unfolding step for `dropLaterNoneIds` on a missing-id row when no
missing id has been seen: the row is kept and the flag turns on. -/
theorem dropLater_cons_none_false (x : SRow) (xs : List SRow)
    (h : x.place_id = none) :
    dropLaterNoneIds false (x :: xs) = x :: dropLaterNoneIds true xs := by
  simp only [dropLaterNoneIds, h, Bool.false_eq_true, if_false]

/-- Rows surviving the dedup pass come from the input. -/
theorem mem_of_mem_pwGo :
    ∀ (l : List SRow) (seen : List (Option String)) (r : SRow),
      r ∈ pwGo seen l → r ∈ l := by
  intro l
  induction l with
  | nil => intro seen r hr; cases hr
  | cons x xs ih =>
    intro seen r hr
    rw [pwGo_cons] at hr
    by_cases hx : x.place_id ∈ seen
    · rw [if_pos hx] at hr
      exact List.mem_cons_of_mem _ (ih seen r hr)
    · rw [if_neg hx] at hr
      rcases List.mem_cons.mp hr with h | h
      · rw [h]
        exact List.mem_cons_self _ _
      · exact List.mem_cons_of_mem _ (ih _ r h)

/-- After the dedup pass, each concrete station id occurs at most once —
and not at all if it was already among the seen keys. -/
theorem countP_pwGo_le :
    ∀ (l : List SRow) (seen : List (Option String)) (k : String),
      (pwGo seen l).countP (fun r => r.place_id = some k)
        ≤ if some k ∈ seen then 0 else 1 := by
  intro l
  induction l with
  | nil =>
    intro seen k
    by_cases h : some k ∈ seen
    · rw [if_pos h]
      simp [pwGo]
    · rw [if_neg h]
      simp [pwGo]
  | cons x xs ih =>
    intro seen k
    rw [pwGo_cons]
    by_cases hx : x.place_id ∈ seen
    · rw [if_pos hx]
      exact ih seen k
    · rw [if_neg hx, List.countP_cons]
      by_cases hxk : x.place_id = some k
      · have h0 := ih (x.place_id :: seen) k
        rw [if_pos (by rw [hxk]; exact List.mem_cons_self _ _)] at h0
        have hks : some k ∉ seen := by
          rw [← hxk]
          exact hx
        rw [if_neg hks]
        have hp : decide (x.place_id = some k) = true := decide_eq_true hxk
        rw [hp, if_pos rfl]
        omega
      · have h0 := ih (x.place_id :: seen) k
        have hp : decide (x.place_id = some k) = false := decide_eq_false hxk
        rw [hp, if_neg Bool.false_ne_true, Nat.add_zero]
        by_cases hseen : some k ∈ seen
        · rw [if_pos (List.mem_cons_of_mem _ hseen)] at h0
          rw [if_pos hseen]
          omega
        · have hnotin : some k ∉ x.place_id :: seen := by
            intro hc
            rcases List.mem_cons.mp hc with h | h
            · exact hxk h.symm
            · exact hseen h
          rw [if_neg hnotin] at h0
          rw [if_neg hseen]
          omega

/-- On a list whose concrete ids occur at most once and avoid the seen
keys, the dedup pass only removes missing-id rows after the first one.  The
flag `b` states whether a missing id is among the seen keys. -/
theorem pwGo_eq_dropLater :
    ∀ (l : List SRow) (seen : List (Option String)) (b : Bool),
      (∀ k : String, l.countP (fun r => r.place_id = some k) ≤ 1) →
      (∀ r ∈ l, ∀ k : String, r.place_id = some k → some k ∉ seen) →
      ((none ∈ seen) ↔ b = true) →
      pwGo seen l = dropLaterNoneIds b l := by
  intro l
  induction l with
  | nil => intro seen b _ _ _; cases b <;> rfl
  | cons x xs ih =>
    intro seen b hcount hdisj hflag
    have hcxs : ∀ k : String, xs.countP (fun r => r.place_id = some k) ≤ 1 := by
      intro k
      have := hcount k
      rw [List.countP_cons] at this
      omega
    rw [pwGo_cons]
    cases hpid : x.place_id with
    | some k =>
      have hknot : some k ∉ seen := hdisj x (List.mem_cons_self _ _) k hpid
      rw [if_neg hknot, dropLater_cons_some b x xs k hpid]
      congr 1
      apply ih (some k :: seen) b hcxs
      · intro r hr k' hk' hc
        rcases List.mem_cons.mp hc with h | h
        · have hk'k : k' = k := Option.some.inj h
          have hxcount := hcount k
          simp only [List.countP_cons] at hxcount
          have hx1 : decide (x.place_id = some k) = true :=
            decide_eq_true (by rw [hpid])
          rw [hx1, if_pos rfl] at hxcount
          have hpos : 0 < xs.countP fun r0 => r0.place_id = some k := by
            rw [List.countP_pos_iff]
            exact ⟨r, hr, decide_eq_true (by rw [hk', hk'k])⟩
          omega
        · exact hdisj r (List.mem_cons_of_mem _ hr) k' hk' h
      · constructor
        · intro hc
          rcases List.mem_cons.mp hc with h | h
          · simp at h
          · exact hflag.mp h
        · intro hb
          exact List.mem_cons_of_mem _ (hflag.mpr hb)
    | none =>
      cases b with
      | true =>
        have hxs : (none : Option String) ∈ seen := hflag.mpr rfl
        rw [if_pos hxs, dropLater_cons_none_true x xs hpid]
        exact ih seen true hcxs
          (fun r hr k hk => hdisj r (List.mem_cons_of_mem _ hr) k hk) hflag
      | false =>
        have hxs : (none : Option String) ∉ seen := fun hc =>
          Bool.false_ne_true (hflag.mp hc)
        rw [if_neg hxs, dropLater_cons_none_false x xs hpid]
        congr 1
        apply ih (none :: seen) true hcxs
        · intro r hr k' hk' hc
          rcases List.mem_cons.mp hc with h | h
          · simp at h
          · exact hdisj r (List.mem_cons_of_mem _ hr) k' hk' h
        · constructor
          · intro _
            rfl
          · intro _
            exact List.mem_cons_self _ _

/-- `dropLaterNoneIds` distributes over append, the flag accumulating
whether the first part contains a missing id. -/
theorem dropLater_append :
    ∀ (l₁ l₂ : List SRow) (b : Bool),
      dropLaterNoneIds b (l₁ ++ l₂)
        = dropLaterNoneIds b l₁
          ++ dropLaterNoneIds (b || l₁.any fun r => r.place_id.isNone) l₂ := by
  intro l₁
  induction l₁ with
  | nil =>
    intro l₂ b
    simp [dropLaterNoneIds]
  | cons x xs ih =>
    intro l₂ b
    rw [List.cons_append]
    cases hpid : x.place_id with
    | some k =>
      have hiN : x.place_id.isNone = false := by rw [hpid]; rfl
      rw [dropLater_cons_some b _ _ k hpid, dropLater_cons_some b x xs k hpid,
        ih l₂ b, List.cons_append]
      simp [hiN]
    | none =>
      have hiN : x.place_id.isNone = true := by rw [hpid]; rfl
      cases b with
      | false =>
        rw [dropLater_cons_none_false _ _ hpid, dropLater_cons_none_false x xs hpid,
          ih l₂ true, List.cons_append]
        simp [hiN]
      | true =>
        rw [dropLater_cons_none_true _ _ hpid, dropLater_cons_none_true x xs hpid,
          ih l₂ true]
        simp [hiN]

/-- On a list without missing ids, `dropLaterNoneIds` is the identity. -/
theorem dropLater_of_no_none :
    ∀ (l : List SRow) (b : Bool), (∀ r ∈ l, r.place_id ≠ none) →
      dropLaterNoneIds b l = l := by
  intro l
  induction l with
  | nil => intro b _; cases b <;> rfl
  | cons x xs ih =>
    intro b h
    cases hpid : x.place_id with
    | none => exact absurd hpid (h x (List.mem_cons_self _ _))
    | some k =>
      rw [dropLater_cons_some b x xs k hpid,
        ih b fun r hr => h r (List.mem_cons_of_mem _ hr)]

/-- Rows surviving `dropLaterNoneIds` come from the input. -/
theorem mem_of_mem_dropLater :
    ∀ (l : List SRow) (b : Bool) (r : SRow),
      r ∈ dropLaterNoneIds b l → r ∈ l := by
  intro l
  induction l with
  | nil => intro b r hr; cases b <;> cases hr
  | cons x xs ih =>
    intro b r hr
    cases hpid : x.place_id with
    | some k =>
      rw [dropLater_cons_some b x xs k hpid] at hr
      rcases List.mem_cons.mp hr with h | h
      · rw [h]
        exact List.mem_cons_self _ _
      · exact List.mem_cons_of_mem _ (ih b r h)
    | none =>
      cases b with
      | true =>
        rw [dropLater_cons_none_true x xs hpid] at hr
        exact List.mem_cons_of_mem _ (ih true r hr)
      | false =>
        rw [dropLater_cons_none_false x xs hpid] at hr
        rcases List.mem_cons.mp hr with h | h
        · rw [h]
          exact List.mem_cons_self _ _
        · exact List.mem_cons_of_mem _ (ih true r h)

/-- Every row of a state's merge segment carries that state's name. -/
theorem state_of_mem_stateSegment (gas : List SRow) (s : String) (r : SRow)
    (hr : r ∈ stateSegment gas s) : r.state_name = s := by
  simp only [stateSegment] at hr
  by_cases hm : (gas.filter fun r0 => r0.state_name = s) = []
  · rw [if_pos hm] at hr
    rw [List.mem_singleton.mp hr]
    rfl
  · rw [if_neg hm] at hr
    exact of_decide_eq_true (List.mem_filter.mp hr).2

/-- Every row of the left join carries a roster state's name. -/
theorem state_mem_of_mem_flatMap (R : List String) (gas : List SRow) (r : SRow)
    (hr : r ∈ R.flatMap (stateSegment gas)) : r.state_name ∈ R := by
  obtain ⟨s, hs, hrs⟩ := List.mem_flatMap.mp hr
  rw [state_of_mem_stateSegment gas s r hrs]
  exact hs

/-- `countP` of a flat map is the sum of the segment counts. -/
theorem countP_flatMap (R : List String) (f : String → List SRow) (p : SRow → Bool) :
    (R.flatMap f).countP p = (R.map fun s => (f s).countP p).sum := by
  induction R with
  | nil => rfl
  | cons a t ih => simp [List.flatMap_cons, List.countP_append, ih]

/-- Sums of natural-valued key statistics split across pointwise addition. -/
theorem natSum_map_add (G : List String) (a b : String → ℕ) :
    (G.map fun s => a s + b s).sum = (G.map a).sum + (G.map b).sum := by
  induction G with
  | nil => rfl
  | cons g t ih =>
    simp only [List.map_cons, List.sum_cons, ih]
    ring

/-- A key indicator sums to zero over a list that misses the key. -/
theorem natSum_map_ite_of_not_mem (G : List String) (k : String) (c : ℕ)
    (hk : k ∉ G) : (G.map fun s => if k = s then c else 0).sum = 0 := by
  induction G with
  | nil => rfl
  | cons a t ih =>
    have hka : k ≠ a := fun he => hk (by rw [he]; exact List.mem_cons_self _ _)
    have hkt : k ∉ t := fun h => hk (List.mem_cons_of_mem _ h)
    simp [hka, ih hkt]

/-- Over a duplicate-free key list, a key indicator scaled by `c` sums to at
most `c`. -/
theorem natSum_map_ite_le (G : List String) (hG : G.Nodup) (k : String) (c : ℕ) :
    (G.map fun s => if k = s then c else 0).sum ≤ c := by
  induction G with
  | nil => exact Nat.zero_le _
  | cons a t ih =>
    rcases List.nodup_cons.mp hG with ⟨hat, htn⟩
    by_cases hka : k = a
    · subst hka
      rw [List.map_cons, List.sum_cons, if_pos rfl,
        natSum_map_ite_of_not_mem t k c hat]
      omega
    · rw [List.map_cons, List.sum_cons, if_neg hka, Nat.zero_add]
      exact ih htn

/-- Summing a `countP` over the per-state fibers of a duplicate-free key
list never exceeds the overall `countP`: the fibers are disjoint. -/
theorem sum_countP_filter_le (p : SRow → Bool) (G : List String) (hG : G.Nodup) :
    ∀ l : List SRow,
      (G.map fun s => ((l.filter fun r => r.state_name = s).countP p)).sum
        ≤ l.countP p := by
  intro l
  induction l with
  | nil =>
    have hz : ∀ s ∈ G, (([] : List SRow).filter fun r => r.state_name = s).countP p = 0 :=
      fun _ _ => rfl
    rw [show (G.map fun s => ((([] : List SRow).filter fun r => r.state_name = s).countP p))
        = G.map fun _ => 0 from List.map_congr_left hz]
    rw [show (G.map fun _ => 0).sum = 0 from by
      induction G with
      | nil => rfl
      | cons a t ih => simp [ih]]
    exact Nat.le_refl _
  | cons x t ih =>
    have hterm : ∀ s ∈ G, ((x :: t).filter fun r => r.state_name = s).countP p
        = ((t.filter fun r => r.state_name = s).countP p)
          + (if x.state_name = s then (if p x then 1 else 0) else 0) := by
      intro s _
      by_cases hxs : x.state_name = s
      · simp [List.filter_cons, hxs, List.countP_cons]
      · simp [List.filter_cons, hxs]
    rw [List.map_congr_left hterm, natSum_map_add]
    have hind : (G.map fun s => if x.state_name = s then (if p x then 1 else 0) else 0).sum
        ≤ (if p x then 1 else 0) :=
      natSum_map_ite_le G hG x.state_name _
    rw [List.countP_cons]
    omega

/-- Filtering the damped flat join for one roster state yields the damped
original segment of that state, for some value of the flag. -/
theorem filter_dropLater_flatMap (D : List SRow) (s : String) :
    ∀ (R : List String) (b : Bool), R.Nodup → s ∈ R →
      ∃ b', ((dropLaterNoneIds b (R.flatMap (stateSegment D))).filter
          fun r => r.state_name = s)
        = dropLaterNoneIds b' (stateSegment D s) := by
  intro R
  induction R with
  | nil => intro b _ hs; cases hs
  | cons a t ih =>
    intro b hnd hs
    rcases List.nodup_cons.mp hnd with ⟨hat, htn⟩
    rw [List.flatMap_cons, dropLater_append, List.filter_append]
    by_cases has : s = a
    · subst has
      have h1 : ((dropLaterNoneIds b (stateSegment D s)).filter
          fun r => r.state_name = s) = dropLaterNoneIds b (stateSegment D s) := by
        rw [List.filter_eq_self]
        intro r hr
        exact decide_eq_true
          (state_of_mem_stateSegment D s r (mem_of_mem_dropLater _ b r hr))
      have h2 : ((dropLaterNoneIds
            (b || (stateSegment D s).any fun r => r.place_id.isNone)
            (t.flatMap (stateSegment D))).filter fun r => r.state_name = s) = [] := by
        rw [List.filter_eq_nil_iff]
        intro r hr hrs
        have hmem : r.state_name ∈ t :=
          state_mem_of_mem_flatMap t D r (mem_of_mem_dropLater _ _ r hr)
        rw [of_decide_eq_true hrs] at hmem
        exact hat hmem
      rw [h1, h2, List.append_nil]
      exact ⟨b, rfl⟩
    · have hst : s ∈ t := by
        rcases List.mem_cons.mp hs with h | h
        · exact absurd h has
        · exact h
      have h1 : ((dropLaterNoneIds b (stateSegment D a)).filter
          fun r => r.state_name = s) = [] := by
        rw [List.filter_eq_nil_iff]
        intro r hr hrs
        have hra : r.state_name = a :=
          state_of_mem_stateSegment D a r (mem_of_mem_dropLater _ b r hr)
        have hsa : s = a := by
          rw [← of_decide_eq_true hrs, hra]
        exact has hsa
      rw [h1, List.nil_append]
      exact ih _ htn hst

/-- Flat maps agree when the segment functions agree on the key list. -/
theorem flatMap_congr_left (R : List String) (f g : String → List SRow)
    (h : ∀ s ∈ R, f s = g s) : R.flatMap f = R.flatMap g := by
  induction R with
  | nil => rfl
  | cons a t ih =>
    rw [List.flatMap_cons, List.flatMap_cons, h a (List.mem_cons_self _ _),
      ih fun s hs => h s (List.mem_cons_of_mem _ hs)]

/--
Claim C9, counterexample.  The Reconciler is not idempotent on inputs with
a missing station id: pandas drop-duplicates on place ids treats NaN ids as
equal, so in the second pass the real row of state "B" (missing id,
municipality "m") is dropped as a duplicate of the placeholder row of the
zero-station state "A" that precedes it; the second left join then replaces
it by an all-missing placeholder.  The second application's output differs
from the first's.
-/
theorem claim_C9_counterexample :
    prepareStationData
        (prepareStationData
          [⟨"B", none, some "m", .missing, .missing, .missing⟩] ["A", "B"])
        ["A", "B"]
      ≠ prepareStationData
        [⟨"B", none, some "m", .missing, .missing, .missing⟩] ["A", "B"] := by
  decide

/--
Claim C9, amended: on inputs in which every station record carries a
(non-missing) station id, the Reconciler is idempotent — a second
application to its own output reproduces it exactly — with deduplication by
station id keeping the first occurrence in input order.  (With missing ids
the counterexample applies.)
-/
theorem claim_C9_amended (gas : List SRow) (roster : List String)
    (hids : ∀ r ∈ gas, r.place_id ≠ none) :
    prepareStationData (prepareStationData gas roster) roster
      = prepareStationData gas roster := by
  have hDids : ∀ r ∈ dropDupPlace gas, r.place_id ≠ none := fun r hr =>
    hids r (mem_of_mem_pwGo gas [] r hr)
  have hRnd : roster.dedup.Nodup := List.nodup_dedup _
  have hDcount : ∀ k : String,
      (dropDupPlace gas).countP (fun r => r.place_id = some k) ≤ 1 := by
    intro k
    have h := countP_pwGo_le gas [] k
    rw [if_neg (List.not_mem_nil _)] at h
    exact h
  have hJcount : ∀ k : String,
      (roster.dedup.flatMap (stateSegment (dropDupPlace gas))).countP
        (fun r => r.place_id = some k) ≤ 1 := by
    intro k
    rw [countP_flatMap]
    have hpoint : ∀ s ∈ roster.dedup,
        (stateSegment (dropDupPlace gas) s).countP (fun r => r.place_id = some k)
          ≤ ((dropDupPlace gas).filter fun r => r.state_name = s).countP
              (fun r => r.place_id = some k) := by
      intro s _
      simp only [stateSegment]
      by_cases hm : ((dropDupPlace gas).filter fun r0 => r0.state_name = s) = []
      · rw [if_pos hm, hm]
        simp [placeholderRow]
      · rw [if_neg hm]
    calc (roster.dedup.map fun s =>
            (stateSegment (dropDupPlace gas) s).countP
              fun r => r.place_id = some k).sum
        ≤ (roster.dedup.map fun s =>
            ((dropDupPlace gas).filter fun r => r.state_name = s).countP
              fun r => r.place_id = some k).sum :=
          List.sum_le_sum hpoint
      _ ≤ (dropDupPlace gas).countP (fun r => r.place_id = some k) :=
          sum_countP_filter_le _ roster.dedup hRnd (dropDupPlace gas)
      _ ≤ 1 := hDcount k
  have hstep : dropDupPlace (roster.dedup.flatMap (stateSegment (dropDupPlace gas)))
      = dropLaterNoneIds false (roster.dedup.flatMap (stateSegment (dropDupPlace gas))) := by
    apply pwGo_eq_dropLater _ [] false hJcount
    · intro r _ k _
      exact List.not_mem_nil _
    · constructor
      · intro hc
        exact absurd hc (List.not_mem_nil _)
      · intro hb
        exact absurd hb Bool.false_ne_true
  have hseg : ∀ s ∈ roster.dedup,
      stateSegment (dropDupPlace (roster.dedup.flatMap
        (stateSegment (dropDupPlace gas)))) s
        = stateSegment (dropDupPlace gas) s := by
    intro s hsR
    obtain ⟨b', hb'⟩ := filter_dropLater_flatMap (dropDupPlace gas) s
      roster.dedup false hRnd hsR
    have hsegeq : ∀ X : List SRow, stateSegment X s
        = if (X.filter fun r => r.state_name = s) = []
          then [placeholderRow s] else X.filter fun r => r.state_name = s :=
      fun X => rfl
    rw [hsegeq, hstep, hb']
    by_cases hm : ((dropDupPlace gas).filter fun r => r.state_name = s) = []
    · have hphseg : stateSegment (dropDupPlace gas) s = [placeholderRow s] := by
        rw [hsegeq, if_pos hm]
      rw [hphseg]
      cases b' with
      | false =>
        rw [show dropLaterNoneIds false [placeholderRow s]
            = [placeholderRow s] from rfl]
        rw [if_neg (by simp)]
      | true =>
        rw [show dropLaterNoneIds true [placeholderRow s] = [] from rfl]
        rw [if_pos rfl]
    · have hfseg : stateSegment (dropDupPlace gas) s
          = (dropDupPlace gas).filter fun r => r.state_name = s := by
        rw [hsegeq, if_neg hm]
      rw [hfseg]
      have hno : ∀ r ∈ ((dropDupPlace gas).filter fun r0 => r0.state_name = s),
          r.place_id ≠ none := fun r hr => hDids r (List.mem_filter.mp hr).1
      rw [dropLater_of_no_none _ b' hno, if_neg hm]
  show leftJoinStates roster (dropDupPlace (prepareStationData gas roster))
      = prepareStationData gas roster
  show roster.dedup.flatMap (stateSegment (dropDupPlace
      (roster.dedup.flatMap (stateSegment (dropDupPlace gas)))))
    = prepareStationData gas roster
  rw [flatMap_congr_left roster.dedup _ _ hseg]
  rfl

/-- Witness for claim C9's amended theorem: a one-station input with a
present id, against a two-state roster, reconciles to a fixed point. -/
theorem claim_C9_witness :
    prepareStationData
        (prepareStationData
          [⟨"B", some "x1", some "m", .missing, .missing, .missing⟩] ["A", "B"])
        ["A", "B"]
      = prepareStationData
        [⟨"B", some "x1", some "m", .missing, .missing, .missing⟩] ["A", "B"] :=
  claim_C9_amended [⟨"B", some "x1", some "m", .missing, .missing, .missing⟩]
    ["A", "B"] (by decide)

end GasMx
